import Mathlib

/-!
Shallow embedding of the core of the `dynamic-pricing-rl-demo` python-dqn
sources, together with theorems settling the specification claims.

Modelling conventions:
* Python floats are modelled as rationals (`ℚ`); the trigonometric season
  components of the continuous state are interpreted in `ℝ` by a separate
  interpretation function.
* `np.exp` and the PER power functions (`** alpha`, `** (-beta)`) are
  transcendental library calls; they are modelled as opaque function
  parameters of type `ℚ → ℚ` threaded through the definitions.  No claim
  below depends on analytic properties of these functions.
* Randomness (`np.random.randint`, `np.random.random`, `np.random.choice`)
  is modelled by passing the drawn values in as explicit arguments.
* Fallible operations (Python list / numpy indexing that can raise
  `IndexError`) are modelled with `Option` / `Except`.
* The external data loader materialises every optional column, defaulting
  missing values to 0 (spec §3/§7), so `row.get(key, default)` is modelled
  as plain field access on a total record.
-/

namespace DynPricing

/-! ## Reward function (src/utils/reward.py) -/

/-- Reward weights dictionary `{'revenue': _, 'margin': _, 'volume': _}`. -/
structure Weights where
  revenue : ℚ
  margin : ℚ
  volume : ℚ
deriving DecidableEq

/-- `normalize` from reward.py: min-max normalization, 0 on a degenerate range. -/
def normalize (value min_val max_val : ℚ) : ℚ :=
  if max_val = min_val then 0 else (value - min_val) / (max_val - min_val)

/-- `compute_reward` from reward.py lines 44-100. -/
def compute_reward (revenue margin volume : ℚ) (weights : Weights)
    (revenue_range margin_range volume_range : ℚ × ℚ) : ℚ :=
  let norm_revenue := normalize revenue revenue_range.1 revenue_range.2
  let norm_margin := normalize margin margin_range.1 margin_range.2
  let raw_volume := normalize volume volume_range.1 volume_range.2
  let volume_threshold : ℚ := 35/100
  let norm_volume := if volume_threshold ≤ raw_volume then 1 else raw_volume / volume_threshold
  weights.revenue * norm_revenue + weights.margin * norm_margin + weights.volume * norm_volume

/-- `compute_price_change_penalty` from reward.py lines 103-130. -/
def compute_price_change_penalty (prev_multiplier current_multiplier : ℚ)
    (penalty_weight : ℚ := 15/100) : ℚ :=
  if prev_multiplier ≤ 0 then 0
  else penalty_weight * (|current_multiplier - prev_multiplier| / prev_multiplier)

/-! ## State encoder (src/environment/state_encoder.py) -/

/-- A retail observation row.  All optional columns are materialised by the
loader with default 0 (spec §3/§7), so `row.get(k, d)` is plain field access. -/
structure Row where
  qty : ℚ
  unit_price : ℚ
  comp_1 : ℚ
  month : ℚ
  lag_price : ℚ
  inventory_level : ℚ
  demand_forecast : ℚ
  freight_price : ℚ
deriving DecidableEq

/-- Minimum of a list (model of `np.min` on a non-empty array; 0 on empty). -/
def listMin : List ℚ → ℚ
  | [] => 0
  | x :: xs => xs.foldl min x

/-- Maximum of a list (model of `np.max` on a non-empty array; 0 on empty). -/
def listMax : List ℚ → ℚ
  | [] => 0
  | x :: xs => xs.foldl max x

/-- Mean of a list (model of `np.mean`; 0 on empty by `ℚ` division). -/
def listMean (l : List ℚ) : ℚ := l.sum / l.length

/-- Insert a value into a sorted list, keeping it sorted. -/
def insertSorted (x : ℚ) : List ℚ → List ℚ
  | [] => [x]
  | y :: ys => if x ≤ y then x :: y :: ys else y :: insertSorted x ys

/-- Ascending sort (model of `np.sort`), as a structurally recursive
insertion sort so that concrete instances evaluate by `decide`. -/
def sortAsc (l : List ℚ) : List ℚ := l.foldr insertSorted []

/-- `StateEncoder._quantile_bins` (state_encoder.py lines 119-139):
`thresholds = [sorted_vals[int((i/num_bins)*len)] for i in 1..num_bins-1]`.
`int` truncation of the non-negative `(i/num_bins)*N` is natural division. -/
def quantile_bins (values : List ℚ) (num_bins : ℕ) : List ℚ :=
  let sorted_vals := sortAsc values
  (List.range' 1 (num_bins - 1)).map fun i => sorted_vals.getD (i * values.length / num_bins) 0

/-- `StateEncoder._digitize` (lines 141-155): index of the first threshold
strictly above the value, else the number of thresholds. -/
def digitize (value : ℚ) : List ℚ → ℕ
  | [] => 0
  | t :: ts => if value < t then 0 else digitize value ts + 1

/-- The statistics a `StateEncoder` instance carries after construction. -/
structure StateEncoder where
  demand_bins : ℕ
  competitor_bins : ℕ
  lag_bins : ℕ
  inventory_bins : ℕ
  forecast_bins : ℕ
  demand_thresholds : List ℚ
  comp_thresholds : List ℚ
  lag_thresholds : List ℚ
  inventory_thresholds : List ℚ
  forecast_thresholds : List ℚ
  has_extended_state : Bool
  qty_min : ℚ
  qty_max : ℚ
  price_min : ℚ
  price_max : ℚ
  comp_min : ℚ
  comp_max : ℚ
  lag_min : ℚ
  lag_max : ℚ
  inv_min : ℚ
  inv_max : ℚ
  forecast_min : ℚ
  forecast_max : ℚ
  base_price : ℚ
  base_cost : ℚ
  base_qty : ℚ
deriving DecidableEq

/-- `StateEncoder.__init__` (lines 31-117). -/
def mkStateEncoder (rows : List Row)
    (demand_bins : ℕ := 3) (competitor_bins : ℕ := 3) (lag_bins : ℕ := 3)
    (inventory_bins : ℕ := 3) (forecast_bins : ℕ := 3) : StateEncoder :=
  let qtys := rows.map (·.qty)
  let prices := rows.map (·.unit_price)
  let comps := rows.map (·.comp_1)
  let lags := rows.map (·.lag_price)
  let inventories := rows.map (·.inventory_level)
  let forecasts := rows.map (·.demand_forecast)
  let costs := rows.map (·.freight_price)
  let comp_valid := comps.filter (fun x => 0 < x)
  let lag_valid := lags.filter (fun x => 0 < x)
  let inv_valid := inventories.filter (fun x => 0 < x)
  let forecast_valid := forecasts.filter (fun x => 0 < x)
  let has_extended : Bool :=
    decide ((rows.length : ℚ) * (1/10) < inv_valid.length) &&
    decide ((rows.length : ℚ) * (1/10) < forecast_valid.length)
  { demand_bins := demand_bins
    competitor_bins := competitor_bins
    lag_bins := lag_bins
    inventory_bins := inventory_bins
    forecast_bins := forecast_bins
    demand_thresholds := quantile_bins qtys demand_bins
    comp_thresholds := quantile_bins (if comp_valid.length > 0 then comp_valid else [0, 1]) competitor_bins
    lag_thresholds := quantile_bins (if lag_valid.length > 0 then lag_valid else [0, 1]) lag_bins
    inventory_thresholds := if has_extended then quantile_bins inv_valid inventory_bins else [0]
    forecast_thresholds := if has_extended then quantile_bins forecast_valid forecast_bins else [0]
    has_extended_state := has_extended
    qty_min := listMin qtys
    qty_max := listMax qtys
    price_min := listMin prices
    price_max := listMax prices
    comp_min := if comp_valid.length > 0 then listMin comp_valid else 0
    comp_max := if comp_valid.length > 0 then listMax comp_valid else 1
    lag_min := if lag_valid.length > 0 then listMin lag_valid else 0
    lag_max := if lag_valid.length > 0 then listMax lag_valid else 1
    inv_min := if has_extended then listMin inv_valid else 0
    inv_max := if has_extended then listMax inv_valid else 1
    forecast_min := if has_extended then listMin forecast_valid else 0
    forecast_max := if has_extended then listMax forecast_valid else 1
    base_price := listMean prices
    base_cost := listMean costs
    base_qty := listMean qtys }

/-- Discrete state dictionary produced by `encode_discrete`. -/
structure DiscreteState where
  demandBin : ℕ
  competitorPriceBin : ℕ
  seasonBin : ℕ
  lagPriceBin : ℕ
  inventoryBin : ℕ
  forecastBin : ℕ
deriving DecidableEq

/-- Season binning from `encode_discrete` (lines 185-194). -/
def seasonOfMonth (month : ℚ) : ℕ :=
  if month ≤ 2 ∨ month = 12 then 0
  else if month ≤ 5 then 1
  else if month ≤ 8 then 2
  else 3

/-- `StateEncoder.encode_discrete` (lines 173-203). -/
def encode_discrete (e : StateEncoder) (row : Row) : DiscreteState :=
  { demandBin := digitize row.qty e.demand_thresholds
    competitorPriceBin := digitize row.comp_1 e.comp_thresholds
    seasonBin := seasonOfMonth row.month
    lagPriceBin := digitize row.lag_price e.lag_thresholds
    inventoryBin := if e.has_extended_state then digitize row.inventory_level e.inventory_thresholds else 0
    forecastBin := if e.has_extended_state then digitize row.demand_forecast e.forecast_thresholds else 0 }

/-- The rational core of a continuous state vector: the seven normalized
components plus the month whose sine/cosine form components 2 and 3.
`contVector` below interprets this as the 9-dimensional real vector. -/
structure ContFeatures where
  demand_norm : ℚ
  comp_norm : ℚ
  month : ℚ
  lag_norm : ℚ
  inv_norm : ℚ
  forecast_norm : ℚ
  margin_potential : ℚ
  price_ratio : ℚ
deriving DecidableEq

/-- `StateEncoder.encode_continuous` (lines 205-260), rational core.
The season components are `sin(2π·month/12)` and `cos(2π·month/12)` of the
recorded month; see `contVector`. -/
def encode_continuousQ (e : StateEncoder) (row : Row) : ContFeatures :=
  { demand_norm := normalize row.qty e.qty_min e.qty_max
    comp_norm := normalize row.comp_1 e.comp_min e.comp_max
    month := row.month
    lag_norm := normalize row.lag_price e.lag_min e.lag_max
    inv_norm := if e.has_extended_state then normalize row.inventory_level e.inv_min e.inv_max else 1/2
    forecast_norm := if e.has_extended_state then normalize row.demand_forecast e.forecast_min e.forecast_max else 1/2
    margin_potential := normalize (row.unit_price - row.freight_price) 0 e.base_price
    price_ratio := normalize row.unit_price e.price_min e.price_max }

/-- Interpretation of `ContFeatures` as the 9-dimensional real vector
`[demand, comp, sin(2π·month/12), cos(2π·month/12), lag, inv, forecast,
margin_potential, price_ratio]` returned by `encode_continuous`. -/
noncomputable def contVector (c : ContFeatures) : Fin 9 → ℝ :=
  ![(c.demand_norm : ℝ), (c.comp_norm : ℝ),
    Real.sin (2 * Real.pi * (c.month : ℝ) / 12),
    Real.cos (2 * Real.pi * (c.month : ℝ) / 12),
    (c.lag_norm : ℝ), (c.inv_norm : ℝ), (c.forecast_norm : ℝ),
    (c.margin_potential : ℝ), (c.price_ratio : ℝ)]

/-- `StateEncoder.encode_continuous` as the real 9-vector. -/
noncomputable def encode_continuous (e : StateEncoder) (row : Row) : Fin 9 → ℝ :=
  contVector (encode_continuousQ e row)

/-- `StateEncoder.discrete_to_continuous` (lines 262-313), rational core.
Fails (`IndexError`) when the season bin is outside `[0, 4)`. -/
def discrete_to_continuous (e : StateEncoder) (d : DiscreteState) : Option ContFeatures := do
  let month ← ([1, 4, 7, 10] : List ℚ).get? d.seasonBin
  pure
    { demand_norm := ((d.demandBin : ℚ) + 1/2) / e.demand_bins
      comp_norm := ((d.competitorPriceBin : ℚ) + 1/2) / e.competitor_bins
      month := month
      lag_norm := ((d.lagPriceBin : ℚ) + 1/2) / e.lag_bins
      inv_norm := if e.has_extended_state then ((d.inventoryBin : ℚ) + 1/2) / e.inventory_bins else 1/2
      forecast_norm := if e.has_extended_state then ((d.forecastBin : ℚ) + 1/2) / e.forecast_bins else 1/2
      margin_potential := 1/2
      price_ratio := 1/2 }

/-! ## Pricing environment (src/environment/pricing_env.py) -/

/-- The mutable and configuration state of a `PricingEnvironment`. -/
structure PricingEnvironment where
  rows : List Row
  weights : Weights
  action_multipliers : List ℚ
  price_change_penalty : ℚ
  encoder : StateEncoder
  base_price : ℚ
  base_cost : ℚ
  base_qty : ℚ
  elasticity : ℚ
  revenue_range : ℚ × ℚ
  margin_range : ℚ × ℚ
  volume_range : ℚ × ℚ
  current_idx : ℕ
  last_action : ℤ

/-- `PricingEnvironment.__init__` (pricing_env.py lines 37-98); the optional
GBRT demand model is always absent (spec §6). -/
def initEnv (rows : List Row) (weights : Weights) (action_multipliers : List ℚ)
    (price_change_penalty : ℚ := 15/100) : PricingEnvironment :=
  let encoder := mkStateEncoder rows
  let base_price := encoder.base_price
  let base_cost := encoder.base_cost
  let base_qty := encoder.base_qty
  { rows := rows
    weights := weights
    action_multipliers := action_multipliers
    price_change_penalty := price_change_penalty
    encoder := encoder
    base_price := base_price
    base_cost := base_cost
    base_qty := base_qty
    elasticity := 7/10
    revenue_range := (base_price * (95/100) * base_qty * (6/10),
                      base_price * (130/100) * base_qty * (11/10))
    margin_range := ((base_price * (95/100) - base_cost) * base_qty * (6/10),
                     (base_price * (130/100) - base_cost) * base_qty * (11/10))
    volume_range := (base_qty * (3/10), base_qty * (12/10))
    current_idx := 0
    last_action := -1 }

/-- `PricingEnvironment._get_effective_elasticity` (lines 100-151). -/
def effectiveElasticity (env : PricingEnvironment) (d : DiscreteState) : ℚ :=
  let demand_factor := 18/10 - ((d.demandBin : ℚ) / ((env.encoder.demand_bins : ℚ) - 1)) * (12/10)
  let comp_factor := 16/10 - ((d.competitorPriceBin : ℚ) / ((env.encoder.competitor_bins : ℚ) - 1)) * (8/10)
  let season_factor : ℚ := if d.seasonBin = 2 then 7/10 else if d.seasonBin = 0 then 13/10 else 1
  let e := env.elasticity * (demand_factor * comp_factor * season_factor)
  let e := if env.encoder.has_extended_state then
      let inventory_factor := 7/10 + ((d.inventoryBin : ℚ) / ((env.encoder.inventory_bins : ℚ) - 1)) * (6/10)
      let forecast_factor := 12/10 - ((d.forecastBin : ℚ) / ((env.encoder.forecast_bins : ℚ) - 1)) * (4/10)
      e * (inventory_factor * forecast_factor)
    else e
  max (5/100) (min e 4)

/-- `PricingEnvironment._predict_demand` (lines 153-194); `exp` models
`np.exp`.  `(self.base_price or 1.0)` is Python truthiness on a float. -/
def predictDemand (exp : ℚ → ℚ) (env : PricingEnvironment) (row : Row) (price : ℚ)
    (d : DiscreteState) : ℚ :=
  let effective_elasticity := effectiveElasticity env d
  let price_change_ratio := (price - env.base_price) / (if env.base_price = 0 then 1 else env.base_price)
  let base_q := if env.encoder.has_extended_state ∧ 0 < row.demand_forecast
    then row.demand_forecast else row.qty
  max 1 (base_q * exp (-effective_elasticity * price_change_ratio))

/-- The `info` dictionary returned by `step`. -/
structure StepInfo where
  revenue : ℚ
  margin : ℚ
  volume : ℚ
  price : ℚ
deriving DecidableEq

/-- The tuple returned by `step`, together with the post-call environment. -/
structure StepResult where
  nextState : ContFeatures
  reward : ℚ
  done : Bool
  info : StepInfo
  env : PricingEnvironment

/-- The real-data path of `PricingEnvironment.step` (lines 196-273).
`none` models an `IndexError` (row cursor or action index out of range). -/
def realStep (exp : ℚ → ℚ) (env : PricingEnvironment) (action : ℕ) : Option StepResult := do
  let row ← env.rows.get? env.current_idx
  let discrete_state := encode_discrete env.encoder row
  let multiplier ← env.action_multipliers.get? action
  let price := env.base_price * multiplier
  let predicted_qty := predictDemand exp env row price discrete_state
  let revenue := price * predicted_qty
  let margin := (price - env.base_cost) * predicted_qty
  let volume_sold := predicted_qty
  let base_reward := compute_reward revenue margin volume_sold env.weights
    env.revenue_range env.margin_range env.volume_range
  let reward ←
    if 0 ≤ env.last_action then do
      let prev_multiplier ← env.action_multipliers.get? env.last_action.toNat
      pure (base_reward - compute_price_change_penalty prev_multiplier multiplier env.price_change_penalty)
    else pure base_reward
  let next_idx := (env.current_idx + 1) % env.rows.length
  let next_row ← env.rows.get? next_idx
  pure
    { nextState := encode_continuousQ env.encoder next_row
      reward := reward
      done := false
      info := { revenue := revenue, margin := margin, volume := volume_sold, price := price }
      env := { env with last_action := (action : ℤ), current_idx := next_idx } }

/-- `PricingEnvironment._synthetic_step` (lines 275-356).  The sampled bins
and the multiplicative noise draw are passed in as arguments; the inventory
and forecast draws are ignored outside extended mode, as in the source. -/
def syntheticStep (exp : ℚ → ℚ) (env : PricingEnvironment) (action : ℕ)
    (demandBin compBin seasonBin lagBin invBin fcBin : ℕ) (noise : ℚ) :
    Option StepResult := do
  let discrete_state : DiscreteState :=
    { demandBin := demandBin
      competitorPriceBin := compBin
      seasonBin := seasonBin
      lagPriceBin := lagBin
      inventoryBin := if env.encoder.has_extended_state then invBin else 0
      forecastBin := if env.encoder.has_extended_state then fcBin else 0 }
  let next_state ← discrete_to_continuous env.encoder discrete_state
  let multiplier ← env.action_multipliers.get? action
  let price := env.base_price * multiplier
  let effective_elasticity := effectiveElasticity env discrete_state
  let price_change_ratio := (price - env.base_price) / (if env.base_price = 0 then 1 else env.base_price)
  let demand_scale := 6/10 + ((demandBin : ℚ) / ((env.encoder.demand_bins : ℚ) - 1)) * (5/10)
  let base_q := env.base_qty * demand_scale
  let predicted_qty := max 1 (base_q * exp (-effective_elasticity * price_change_ratio) * noise)
  let revenue := price * predicted_qty
  let margin := (price - env.base_cost) * predicted_qty
  let volume_sold := predicted_qty
  let base_reward := compute_reward revenue margin volume_sold env.weights
    env.revenue_range env.margin_range env.volume_range
  let reward ←
    if 0 ≤ env.last_action then do
      let prev_multiplier ← env.action_multipliers.get? env.last_action.toNat
      pure (base_reward - compute_price_change_penalty prev_multiplier multiplier env.price_change_penalty)
    else pure base_reward
  pure
    { nextState := next_state
      reward := reward
      done := false
      info := { revenue := revenue, margin := margin, volume := volume_sold, price := price }
      env := env }

/-! ## Replay buffer (src/models/replay_buffer.py) -/

/-- One stored transition (a row across the buffer's parallel arrays). -/
structure Transition where
  state : List ℚ
  action : ℤ
  reward : ℚ
  next_state : List ℚ
  done : Bool
deriving DecidableEq

/-- The state of a `ReplayBuffer`.  The pre-allocated parallel arrays are
modelled as one total slot function `store`; slots `≥ capacity` are never
written or read by the modelled operations. -/
structure ReplayBuffer where
  capacity : ℕ
  state_dim : ℕ
  use_per : Bool
  alpha : ℚ
  beta : ℚ
  beta_start : ℚ
  beta_end : ℚ
  beta_frames : ℕ
  store : ℕ → Transition
  priorities : ℕ → ℚ
  max_priority : ℚ
  position : ℕ
  size : ℕ
  frame_count : ℕ

/-- `ReplayBuffer.__init__` (replay_buffer.py lines 40-82): zeroed arrays,
priorities all 1, `max_priority = 1`, `position = size = frame_count = 0`. -/
def mkBuffer (capacity state_dim : ℕ) (use_per : Bool := true)
    (alpha : ℚ := 6/10) (beta_start : ℚ := 4/10) (beta_end : ℚ := 1)
    (beta_frames : ℕ := 100000) : ReplayBuffer :=
  { capacity := capacity
    state_dim := state_dim
    use_per := use_per
    alpha := alpha
    beta := beta_start
    beta_start := beta_start
    beta_end := beta_end
    beta_frames := beta_frames
    store := fun _ =>
      { state := List.replicate state_dim 0
        action := 0
        reward := 0
        next_state := List.replicate state_dim 0
        done := false }
    priorities := fun _ => 1
    max_priority := 1
    position := 0
    size := 0
    frame_count := 0 }

/-- `ReplayBuffer.add` (lines 84-118). -/
def bufAdd (b : ReplayBuffer) (t : Transition) : ReplayBuffer :=
  { b with
    store := Function.update b.store b.position t
    priorities := if b.use_per then Function.update b.priorities b.position b.max_priority
                  else b.priorities
    position := (b.position + 1) % b.capacity
    size := min (b.size + 1) b.capacity }

/-- `ts.foldl bufAdd b`: a sequence of `add` calls. -/
def bufAddAll (b : ReplayBuffer) (ts : List Transition) : ReplayBuffer :=
  ts.foldl bufAdd b

/-- What `sample` returns besides the mutated buffer. -/
structure SampleBatch where
  transitions : List Transition
  indices : List ℕ
  isWeights : List ℚ
deriving DecidableEq

/-- `ReplayBuffer.sample` (lines 120-179).  `choice n k` models
`np.random.choice(n, size=k, replace=False, ...)` (the probability vector
only shapes the distribution of the draw, not its support bounds);
`powAlpha` models `x ** alpha` and `powNegBeta` models `x ** (-beta)`.
The `ValueError` raised on insufficient data is an `Except.error`. -/
def bufSample (b : ReplayBuffer) (batch_size : ℕ) (choice : ℕ → ℕ → List ℕ)
    (powAlpha powNegBeta : ℚ → ℚ) : Except String (SampleBatch × ReplayBuffer) :=
  if b.size < batch_size then
    .error "Buffer size < batch size"
  else
    let result :=
      if b.use_per then
        let priority_sum := ((List.range b.size).map fun i => powAlpha (b.priorities i)).sum
        let indices := choice b.size batch_size
        let weights := indices.map fun i =>
          powNegBeta ((b.size : ℚ) * (powAlpha (b.priorities i) / priority_sum))
        let wmax := listMax weights
        ⟨indices.map b.store, indices, weights.map (· / wmax)⟩
      else
        let indices := choice b.size batch_size
        (⟨indices.map b.store, indices, List.replicate batch_size 1⟩ : SampleBatch)
    let frame_count := b.frame_count + 1
    let progress := min 1 ((frame_count : ℚ) / (b.beta_frames : ℚ))
    let beta := b.beta_start + (b.beta_end - b.beta_start) * progress
    .ok (result, { b with frame_count := frame_count, beta := beta })

/-- `ReplayBuffer.update_priorities` (lines 181-198).  `powAlpha` models
`x ** alpha`; the vectorised fancy assignment is sequential slot updates
(last write wins on duplicate indices, as in numpy), and
`max_priority = max(max_priority, priorities.max())` is a fold. -/
def bufUpdatePriorities (b : ReplayBuffer) (indices : List ℕ) (td_errors : List ℚ)
    (powAlpha : ℚ → ℚ) : ReplayBuffer :=
  if b.use_per = false then b
  else
    let new_priorities := td_errors.map fun td => powAlpha (|td| + 1/1000000)
    { b with
      priorities := (List.zip indices new_priorities).foldl
        (fun f p => Function.update f p.1 p.2) b.priorities
      max_priority := new_priorities.foldl max b.max_priority }

/-- One externally-visible buffer operation, for stating invariants over
arbitrary call sequences.  A failed `sample` leaves the buffer unchanged
(the `ValueError` is raised before any mutation). -/
inductive BufferOp where
  | add (t : Transition)
  | sample (batch_size : ℕ) (choice : ℕ → ℕ → List ℕ)
  | update (indices : List ℕ) (td_errors : List ℚ)

/-- Apply one `BufferOp`. -/
def applyOp (powAlpha powNegBeta : ℚ → ℚ) (b : ReplayBuffer) : BufferOp → ReplayBuffer
  | .add t => bufAdd b t
  | .sample batch_size choice =>
      match bufSample b batch_size choice powAlpha powNegBeta with
      | .ok (_, b') => b'
      | .error _ => b
  | .update indices td_errors => bufUpdatePriorities b indices td_errors powAlpha

/-- Apply a sequence of `BufferOp`s. -/
def applyOps (powAlpha powNegBeta : ℚ → ℚ) (b : ReplayBuffer) (ops : List BufferOp) : ReplayBuffer :=
  ops.foldl (applyOp powAlpha powNegBeta) b

/-! ## Claim-side definition for the C4 refinement comparison -/

/-- The quantile thresholds exactly as the claim words them: `thresholds[i]`
is the value at the `⌈(i/num_bins)·N⌉`-th (1-indexed) position of the sorted
array, for `i = 1 .. num_bins - 1`.  To be compared with `quantile_bins`. -/
def claimQuantileBins (values : List ℚ) (num_bins : ℕ) : List ℚ :=
  let sorted_vals := sortAsc values
  (List.range' 1 (num_bins - 1)).map fun i =>
    sorted_vals.getD ((⌈((i * values.length : ℕ) : ℚ) / (num_bins : ℚ)⌉).toNat - 1) 0

/-! ## Concrete data used by witnesses and counterexamples -/

/-- Witness data: a row with a positive competitor price. -/
def rowA : Row :=
  { qty := 10, unit_price := 100, comp_1 := 50, month := 1,
    lag_price := 50, inventory_level := 0, demand_forecast := 0, freight_price := 10 }

/-- Witness data: a second row with a positive competitor price. -/
def rowB : Row :=
  { qty := 20, unit_price := 200, comp_1 := 60, month := 7,
    lag_price := 60, inventory_level := 0, demand_forecast := 0, freight_price := 10 }

/-- Counterexample data: a row whose competitor price column is the
missing-data sentinel 0. -/
def rowC : Row :=
  { qty := 30, unit_price := 100, comp_1 := 0, month := 3,
    lag_price := 55, inventory_level := 0, demand_forecast := 0, freight_price := 10 }

/-- Counterexample dataset: two rows with positive competitor prices and one
with the sentinel 0. -/
def cRows : List Row := [rowA, rowB, rowC]

/-- Witness dataset without sentinel values. -/
def wRows : List Row := [rowA, rowB]

/-- Witness environment over `wRows`. -/
def wEnv : PricingEnvironment :=
  initEnv wRows ⟨4/10, 4/10, 2/10⟩ [8/10, 9/10, 1, 11/10, 12/10]

/-- Witness stand-in for `np.exp` (the claims hold for every such function). -/
def wExp : ℚ → ℚ := fun _ => 1

/-- Witness transition with a recognisable payload. -/
def wT (n : ℚ) : Transition :=
  { state := [n], action := 0, reward := n, next_state := [n], done := false }

/-! ## Claim C1 -/

/-- C1: `compute_reward` returns
`w.revenue·norm_revenue + w.margin·norm_margin + w.volume·volume_credit`
where the norms are min-max normalizations against the supplied ranges and
the volume credit is 1 when the normalized volume is ≥ 0.35 and
`normalized_volume / 0.35` otherwise.  (Stated for non-degenerate ranges,
where min-max normalization is meaningful.) -/
theorem compute_reward_formula (revenue margin volume : ℚ) (w : Weights)
    (rlo rhi mlo mhi vlo vhi : ℚ) (hr : rlo < rhi) (hm : mlo < mhi) (hv : vlo < vhi) :
    compute_reward revenue margin volume w (rlo, rhi) (mlo, mhi) (vlo, vhi) =
      w.revenue * ((revenue - rlo) / (rhi - rlo)) +
      w.margin * ((margin - mlo) / (mhi - mlo)) +
      w.volume * (if (35:ℚ)/100 ≤ (volume - vlo) / (vhi - vlo) then 1
                  else ((volume - vlo) / (vhi - vlo)) / (35/100)) := by
  unfold compute_reward normalize
  simp only [ne_eq, hr.ne', hm.ne', hv.ne', if_false]

/-- Witness for C1 at concrete inputs. -/
theorem compute_reward_formula_witness :
    compute_reward 100 50 10 ⟨4/10, 4/10, 2/10⟩ (50, 150) (20, 80) (5, 15) =
      (4:ℚ)/10 * ((100 - 50) / (150 - 50)) +
      4/10 * ((50 - 20) / (80 - 20)) +
      2/10 * (if (35:ℚ)/100 ≤ (10 - 5) / (15 - 5) then 1
              else ((10 - 5) / (15 - 5)) / (35/100)) :=
  compute_reward_formula 100 50 10 ⟨4/10, 4/10, 2/10⟩ 50 150 20 80 5 15
    (by norm_num) (by norm_num) (by norm_num)

/-! ## Claim C3 -/

/-- C3: no price change means no penalty; a non-positive previous multiplier
means no penalty; and for a positive previous multiplier the penalty is
`w · |current − prev| / prev`, linear in the relative multiplier change. -/
theorem price_change_penalty_spec :
    (∀ m w : ℚ, compute_price_change_penalty m m w = 0) ∧
    (∀ p c w : ℚ, p ≤ 0 → compute_price_change_penalty p c w = 0) ∧
    (∀ p c w : ℚ, 0 < p →
      compute_price_change_penalty p c w = w * |c - p| / p) := by
  refine ⟨fun m w => ?_, fun p c w hp => ?_, fun p c w hp => ?_⟩
  · unfold compute_price_change_penalty
    by_cases h : m ≤ 0 <;> simp [h]
  · simp [compute_price_change_penalty, hp]
  · rw [compute_price_change_penalty, if_neg (not_le.mpr hp), mul_div_assoc]

/-- Witness for C3 at concrete inputs. -/
theorem price_change_penalty_spec_witness :
    compute_price_change_penalty 2 2 5 = 0 ∧
    compute_price_change_penalty (-1) 3 5 = 0 ∧
    compute_price_change_penalty 2 3 5 = 5 * |3 - 2| / 2 :=
  ⟨price_change_penalty_spec.1 2 5,
   price_change_penalty_spec.2.1 (-1) 3 5 (by norm_num),
   price_change_penalty_spec.2.2 2 3 5 (by norm_num)⟩

/-! ## Claim C4 -/

theorem sortAsc_eq_of_sorted : ∀ (l : List ℚ), l.Pairwise (· ≤ ·) → sortAsc l = l
  | [], _ => rfl
  | x :: xs, h => by
    have hx := List.pairwise_cons.mp h
    have ih := sortAsc_eq_of_sorted xs hx.2
    show insertSorted x (sortAsc xs) = x :: xs
    rw [ih]
    cases xs with
    | nil => rfl
    | cons y ys => simp [insertSorted, hx.1 y (by simp)]

theorem ceil_natCast_div_of_not_dvd (m n : ℕ) (hn : 0 < n) (h : ¬ n ∣ m) :
    ⌈(m : ℚ) / (n : ℚ)⌉ = (m / n : ℕ) + 1 := by
  have hn' : (0 : ℚ) < n := by exact_mod_cast hn
  have key1 : m / n * n < m := by
    have hle : m / n * n ≤ m := Nat.div_mul_le_self m n
    have hne : m / n * n ≠ m := fun he => h ⟨m / n, he.symm.trans (mul_comm _ _)⟩
    exact lt_of_le_of_ne hle hne
  have key2 : m ≤ (m / n + 1) * n := by
    have h2 : m / n * n + m % n = m := Nat.div_add_mod' m n
    have h3 : (m / n + 1) * n = m / n * n + n := by ring
    have hlt : m % n < n := Nat.mod_lt m hn
    generalize m / n * n = X at h2 h3
    omega
  rw [Int.ceil_eq_iff]
  have c1 : ((((m / n : ℕ) : ℤ) + 1 : ℤ) : ℚ) = ((m / n : ℕ) : ℚ) + 1 := by
    rw [Int.cast_add, Int.cast_one, Int.cast_natCast]
  rw [c1]
  refine ⟨?_, ?_⟩
  · have hq : ((m / n : ℕ) : ℚ) < (m : ℚ) / (n : ℚ) := by
      rw [lt_div_iff hn']
      exact_mod_cast key1
    linarith
  · rw [div_le_iff hn']
    have hq : (m : ℚ) ≤ (((m / n + 1) * n : ℕ) : ℚ) := by exact_mod_cast key2
    calc (m : ℚ) ≤ (((m / n + 1) * n : ℕ) : ℚ) := hq
    _ = (((m / n : ℕ) : ℚ) + 1) * (n : ℚ) := by push_cast; ring

/-- C4 corrected, counterexample: on the sorted array `[10, 20, 30]` with
3 bins the code's thresholds are `[20, 30]`, whereas the claimed
ceiling-position rule yields `[10, 20]`. -/
theorem quantile_bins_counterexample :
    quantile_bins [10, 20, 30] 3 = [20, 30] ∧
    claimQuantileBins [10, 20, 30] 3 = [10, 20] ∧
    quantile_bins [10, 20, 30] 3 ≠ claimQuantileBins [10, 20, 30] 3 := by
  have h1 : quantile_bins [10, 20, 30] 3 = [20, 30] := by decide
  have c1 : ⌈((1 * ([10, 20, 30] : List ℚ).length : ℕ) : ℚ) / ((3 : ℕ) : ℚ)⌉ = 1 := by
    norm_num
  have c2 : ⌈((2 * ([10, 20, 30] : List ℚ).length : ℕ) : ℚ) / ((3 : ℕ) : ℚ)⌉ = 2 := by
    norm_num
  have h2 : claimQuantileBins [10, 20, 30] 3 = [10, 20] := by
    simp only [claimQuantileBins, List.range', List.map, c1, c2]
    decide
  rw [h1, h2]
  exact ⟨rfl, rfl, by decide⟩

/-- C4 amended: for a non-empty sorted array of length N and `num_bins ≥ 2`,
threshold `i` (for `i = 1 .. num_bins-1`, stored at list offset `i-1`) is the
element at 0-indexed position `⌊(i/num_bins)·N⌋` of the sorted array — a
valid position — and this agrees with the claimed 1-indexed
`⌈(i/num_bins)·N⌉`-th position whenever `num_bins` does not divide `i·N`. -/
theorem quantile_bins_floor_indexing (values : List ℚ) (num_bins : ℕ)
    (hne : values ≠ []) (hs : values.Pairwise (· ≤ ·)) (hb : 2 ≤ num_bins) :
    (quantile_bins values num_bins).length = num_bins - 1 ∧
    ∀ i, 1 ≤ i → i < num_bins →
      i * values.length / num_bins < values.length ∧
      (quantile_bins values num_bins).getD (i - 1) 0 =
        values.getD (i * values.length / num_bins) 0 ∧
      (¬ num_bins ∣ i * values.length →
        (quantile_bins values num_bins).getD (i - 1) 0 =
          values.getD ((⌈((i * values.length : ℕ) : ℚ) / (num_bins : ℚ)⌉).toNat - 1) 0) := by
  have hN : 0 < values.length := List.length_pos.mpr hne
  have hq : quantile_bins values num_bins =
      (List.range' 1 (num_bins - 1)).map fun i => values.getD (i * values.length / num_bins) 0 := by
    rw [quantile_bins, sortAsc_eq_of_sorted values hs]
  refine ⟨by rw [hq]; simp, fun i h1 h2 => ?_⟩
  have hidx : i * values.length / num_bins < values.length := by
    refine (Nat.div_lt_iff_lt_mul (by omega)).mpr ?_
    rw [mul_comm values.length num_bins]
    exact mul_lt_mul_of_pos_right h2 hN
  have hmain : (quantile_bins values num_bins).getD (i - 1) 0 =
      values.getD (i * values.length / num_bins) 0 := by
    have hlen : i - 1 <
        ((List.range' 1 (num_bins - 1)).map fun i => values.getD (i * values.length / num_bins) 0).length := by
      simp
      omega
    rw [hq, List.getD_eq_get? , List.get?_eq_get hlen, Option.getD_some,
      List.get_eq_getElem, List.getElem_map, List.getElem_range']
    have hi : 1 + 1 * (i - 1) = i := by omega
    rw [hi]
  refine ⟨hidx, hmain, fun hdvd => ?_⟩
  have ht : ∀ q : ℕ, (((q : ℕ) : ℤ) + 1).toNat - 1 = q := fun q => by omega
  have hc := ceil_natCast_div_of_not_dvd (i * values.length) num_bins (by omega) hdvd
  rw [hc, ht]
  exact hmain

/-- Witness for the amended C4 at a concrete sorted array. -/
theorem quantile_bins_floor_indexing_witness :
    (quantile_bins [10, 20, 30] 3).length = 3 - 1 ∧
    2 * ([10, 20, 30] : List ℚ).length / 3 < ([10, 20, 30] : List ℚ).length ∧
    (quantile_bins [10, 20, 30] 3).getD (2 - 1) 0 =
      ([10, 20, 30] : List ℚ).getD (2 * ([10, 20, 30] : List ℚ).length / 3) 0 := by
  have h := quantile_bins_floor_indexing [10, 20, 30] 3 (by decide) (by decide) (by decide)
  exact ⟨h.1, (h.2 2 (by decide) (by decide)).1, (h.2 2 (by decide) (by decide)).2.1⟩

/-! ## Claim C5 -/

theorem bufAddAll_append (b : ReplayBuffer) (ts : List Transition) (t : Transition) :
    bufAddAll b (ts ++ [t]) = bufAdd (bufAddAll b ts) t := by
  simp [bufAddAll, List.foldl_append]

theorem capacity_bufAddAll (ts : List Transition) : ∀ b : ReplayBuffer,
    (bufAddAll b ts).capacity = b.capacity := by
  induction ts with
  | nil => intro b; rfl
  | cons t ts ih => intro b; exact ih (bufAdd b t)

theorem size_bufAddAll (ts : List Transition) : ∀ b : ReplayBuffer, b.size ≤ b.capacity →
    (bufAddAll b ts).size = min (b.size + ts.length) b.capacity := by
  induction ts with
  | nil => intro b h; simp [bufAddAll]; omega
  | cons t ts ih =>
    intro b h
    have hstep : bufAddAll b (t :: ts) = bufAddAll (bufAdd b t) ts := rfl
    rw [hstep, ih (bufAdd b t) (by simp [bufAdd])]
    simp [bufAdd]
    omega

theorem position_bufAddAll (ts : List Transition) : ∀ b : ReplayBuffer, 0 < b.capacity →
    b.position < b.capacity →
    (bufAddAll b ts).position = (b.position + ts.length) % b.capacity := by
  induction ts with
  | nil => intro b hC hp; simp [bufAddAll, Nat.mod_eq_of_lt hp]
  | cons t ts ih =>
    intro b hC hp
    have hstep : bufAddAll b (t :: ts) = bufAddAll (bufAdd b t) ts := rfl
    rw [hstep, ih (bufAdd b t) (by simpa [bufAdd] using hC) (by simp [bufAdd]; exact Nat.mod_lt _ hC)]
    simp only [bufAdd]
    rw [Nat.mod_add_mod]
    simp only [List.length_cons]
    congr 1
    omega

theorem store_bufAddAll (ts : List Transition) : ∀ b : ReplayBuffer, 0 < b.capacity →
    b.position < b.capacity →
    ∀ k (hk : k < ts.length), ts.length ≤ k + b.capacity →
    (bufAddAll b ts).store ((b.position + k) % b.capacity) = ts.get ⟨k, hk⟩ := by
  induction ts using List.reverseRecOn with
  | nil => intro b _ _ k hk; simp at hk
  | append_singleton l a ih =>
    intro b hC hp k hk hle
    rw [bufAddAll_append]
    have hposl : (bufAddAll b l).position = (b.position + l.length) % b.capacity :=
      position_bufAddAll l b hC hp
    have hcap : (bufAddAll b l).capacity = b.capacity := capacity_bufAddAll l b
    simp only [bufAdd]
    by_cases hkl : k = l.length
    · subst hkl
      rw [hposl, Function.update_same]
      simp [List.get_eq_getElem, List.getElem_concat_length]
    · have hk' : k < l.length := by simp at hk; omega
      have hne : (b.position + k) % b.capacity ≠ (bufAddAll b l).position := by
        rw [hposl]
        intro heq
        have hmod : k ≡ l.length [MOD b.capacity] :=
          Nat.ModEq.add_left_cancel' b.position heq
        have hdvd : b.capacity ∣ l.length - k :=
          (Nat.modEq_iff_dvd' (le_of_lt hk')).mp hmod
        have hlen : l.length - k ≠ 0 := by omega
        have := Nat.le_of_dvd (by omega) hdvd
        simp at hle
        omega
      rw [Function.update_noteq hne]
      have := ih b hC hp k hk' (by simp at hle; omega)
      rw [this]
      simp [List.get_eq_getElem, List.getElem_append_left hk']

/-- C5: starting from an empty buffer of capacity `C > 0`, after any sequence
of `add` calls the size is `min (number of adds) C` (hence never exceeds `C`,
and equals `C` once strictly more than `C` adds happened), the write position
has advanced modulo `C`, each of the last `C` added transitions sits in slot
`(its index) mod C` (so each add overwrote the transition added `C` steps
earlier, the oldest one stored), and with prioritization enabled every `add`
assigns the buffer's current maximum observed priority to the written slot. -/
theorem replay_buffer_ring (C sd : ℕ) (useper : Bool) (ts : List Transition) (hC : 0 < C) :
    (bufAddAll (mkBuffer C sd useper) ts).size = min ts.length C ∧
    (bufAddAll (mkBuffer C sd useper) ts).position = ts.length % C ∧
    (∀ k (hk : k < ts.length), ts.length ≤ k + C →
      (bufAddAll (mkBuffer C sd useper) ts).store (k % C) = ts.get ⟨k, hk⟩) ∧
    (∀ (b : ReplayBuffer) (t : Transition), b.use_per = true →
      (bufAdd b t).priorities b.position = b.max_priority) := by
  refine ⟨?_, ?_, fun k hk hle => ?_, fun b t hper => ?_⟩
  · have := size_bufAddAll ts (mkBuffer C sd useper) (by simp [mkBuffer])
    simpa [mkBuffer] using this
  · have := position_bufAddAll ts (mkBuffer C sd useper) (by simpa [mkBuffer] using hC)
      (by simpa [mkBuffer] using hC)
    simpa [mkBuffer] using this
  · have := store_bufAddAll ts (mkBuffer C sd useper) (by simpa [mkBuffer] using hC)
      (by simpa [mkBuffer] using hC) k hk (by simpa [mkBuffer] using hle)
    simpa [mkBuffer] using this
  · simp [bufAdd, hper]

/-- Witness for C5: capacity 2, three adds. -/
theorem replay_buffer_ring_witness :
    (bufAddAll (mkBuffer 2 1 true) [wT 1, wT 2, wT 3]).size = min 3 2 ∧
    (bufAddAll (mkBuffer 2 1 true) [wT 1, wT 2, wT 3]).position = 3 % 2 ∧
    (bufAddAll (mkBuffer 2 1 true) [wT 1, wT 2, wT 3]).store (2 % 2) = wT 3 ∧
    (bufAdd (mkBuffer 2 1 true) (wT 1)).priorities (mkBuffer 2 1 true).position =
      (mkBuffer 2 1 true).max_priority := by
  have h := replay_buffer_ring 2 1 true [wT 1, wT 2, wT 3] (by decide)
  exact ⟨h.1, h.2.1, h.2.2.1 2 (by decide) (by decide), h.2.2.2 (mkBuffer 2 1 true) (wT 1) rfl⟩

/-! ## Claim C6 -/

/-- C6: `sample` fails with an explicit error exactly when the stored size is
strictly below the batch size; on success it returns exactly `batch_size`
transitions and indices (never short or padded) and every returned index is
below the current size.  The hypothesis on `choice` is numpy's contract for
`np.random.choice(n, size=k, replace=False)` with `k ≤ n`. -/
theorem replay_buffer_sample_spec (b : ReplayBuffer) (batch_size : ℕ)
    (choice : ℕ → ℕ → List ℕ) (powAlpha powNegBeta : ℚ → ℚ)
    (hchoice : ∀ n k, k ≤ n → (choice n k).length = k ∧ ∀ i ∈ choice n k, i < n) :
    (b.size < batch_size →
      bufSample b batch_size choice powAlpha powNegBeta =
        .error "Buffer size < batch size") ∧
    (batch_size ≤ b.size →
      ∃ batch b', bufSample b batch_size choice powAlpha powNegBeta = .ok (batch, b') ∧
        batch.transitions.length = batch_size ∧
        batch.indices.length = batch_size ∧
        ∀ i ∈ batch.indices, i < b.size) := by
  constructor
  · intro h
    simp [bufSample, h]
  · intro h
    obtain ⟨hlen, hmem⟩ := hchoice b.size batch_size h
    rw [bufSample, if_neg (not_lt.mpr h)]
    by_cases hper : b.use_per = true
    · exact ⟨_, _, by rw [if_pos hper], by simpa using hlen, hlen, hmem⟩
    · exact ⟨_, _, by rw [if_neg hper], by simpa using hlen, hlen, hmem⟩

/-- Witness for C6: a buffer holding one transition, batch size 1, and an
in-range index draw. -/
theorem replay_buffer_sample_spec_witness :
    ∃ batch b', bufSample (bufAdd (mkBuffer 2 1 true) (wT 1)) 1
        (fun _ k => List.range k) id id = .ok (batch, b') ∧
      batch.transitions.length = 1 ∧
      batch.indices.length = 1 ∧
      ∀ i ∈ batch.indices, i < (bufAdd (mkBuffer 2 1 true) (wT 1)).size :=
  (replay_buffer_sample_spec (bufAdd (mkBuffer 2 1 true) (wT 1)) 1
    (fun _ k => List.range k) id id
    (fun n k hk => ⟨List.length_range k, fun i hi => lt_of_lt_of_le (List.mem_range.mp hi) hk⟩)).2
    (by decide)

/-! ## Claim C10 -/

theorem le_foldl_max (l : List ℚ) : ∀ a : ℚ, a ≤ l.foldl max a := by
  induction l with
  | nil => intro a; exact le_refl a
  | cons x xs ih => intro a; exact le_trans (le_max_left a x) (ih (max a x))

theorem max_priority_applyOp (powAlpha powNegBeta : ℚ → ℚ) (b : ReplayBuffer) (op : BufferOp) :
    b.max_priority ≤ (applyOp powAlpha powNegBeta b op).max_priority := by
  cases op with
  | add t => simp [applyOp, bufAdd]
  | sample batch_size choice =>
    by_cases h : b.size < batch_size
    · simp [applyOp, bufSample, h]
    · simp [applyOp, bufSample, h]
  | update indices td_errors =>
    simp only [applyOp, bufUpdatePriorities]
    split
    · exact le_refl _
    · exact le_foldl_max _ b.max_priority

/-- C10: across every sequence of `add`, `sample` and `update_priorities`
calls the running `max_priority` never decreases; and concretely, after
`update_priorities` lowers every stored priority, the next `add` writes a
priority (the retained old maximum) strictly larger than every priority then
stored in the other slots. -/
theorem max_priority_monotone :
    (∀ (powAlpha powNegBeta : ℚ → ℚ) (b : ReplayBuffer) (ops : List BufferOp),
      b.max_priority ≤ (applyOps powAlpha powNegBeta b ops).max_priority) ∧
    ((bufAdd (bufUpdatePriorities
        (bufAddAll (mkBuffer 2 1 true) [wT 1, wT 2]) [0, 1] [1/10, 1/10] id)
        (wT 3)).priorities 0 =
      (bufUpdatePriorities
        (bufAddAll (mkBuffer 2 1 true) [wT 1, wT 2]) [0, 1] [1/10, 1/10] id).max_priority ∧
     (bufAdd (bufUpdatePriorities
        (bufAddAll (mkBuffer 2 1 true) [wT 1, wT 2]) [0, 1] [1/10, 1/10] id)
        (wT 3)).priorities 1 <
      (bufAdd (bufUpdatePriorities
        (bufAddAll (mkBuffer 2 1 true) [wT 1, wT 2]) [0, 1] [1/10, 1/10] id)
        (wT 3)).priorities 0) := by
  constructor
  · intro powAlpha powNegBeta b ops
    induction ops generalizing b with
    | nil => exact le_refl _
    | cons op ops ih =>
      exact le_trans (max_priority_applyOp powAlpha powNegBeta b op)
        (ih (applyOp powAlpha powNegBeta b op))
  · constructor
    · simp only [bufAdd, bufUpdatePriorities, bufAddAll, mkBuffer, wT, List.foldl,
        List.zip, List.zipWith, List.map, max_def, Function.update]
      norm_num
    · simp only [bufAdd, bufUpdatePriorities, bufAddAll, mkBuffer, wT, List.foldl,
        List.zip, List.zipWith, List.map, max_def, Function.update]
      have habs : |(1:ℚ)/10| = 1/10 := by norm_num
      rw [habs]
      norm_num

/-! ## Claim C8 -/

/-- C8: a synthetic step leaves the environment — in particular
`last_action` — unchanged, whereas a real-data step sets `last_action` to the
action just taken; hence a synthetic step never changes which previous
multiplier later stability penalties are computed against. -/
theorem synthetic_step_last_action
    (exp : ℚ → ℚ) (env : PricingEnvironment) (action db cb sb lb ib fb : ℕ) (noise : ℚ) :
    (∀ r, syntheticStep exp env action db cb sb lb ib fb noise = some r →
      r.env = env ∧ r.env.last_action = env.last_action) ∧
    (∀ r, realStep exp env action = some r → r.env.last_action = (action : ℤ)) := by
  constructor
  · intro r h
    by_cases hba : (0 : ℤ) ≤ env.last_action
    · simp only [syntheticStep, bind, Option.bind_eq_some, Option.pure_def,
        Option.some.injEq, if_pos hba] at h
      obtain ⟨ns, -, m, -, pm, -, rew, -, heq⟩ := h
      subst heq
      exact ⟨rfl, rfl⟩
    · simp only [syntheticStep, bind, Option.bind_eq_some, Option.pure_def,
        Option.some.injEq, if_neg hba] at h
      obtain ⟨ns, -, m, -, rew, -, heq⟩ := h
      subst heq
      exact ⟨rfl, rfl⟩
  · intro r h
    by_cases hba : (0 : ℤ) ≤ env.last_action
    · simp only [realStep, bind, Option.bind_eq_some, Option.pure_def,
        Option.some.injEq, if_pos hba] at h
      obtain ⟨row, -, m, -, pm, -, rew, -, nrow, -, heq⟩ := h
      subst heq
      rfl
    · simp only [realStep, bind, Option.bind_eq_some, Option.pure_def,
        Option.some.injEq, if_neg hba] at h
      obtain ⟨row, -, m, -, rew, -, nrow, -, heq⟩ := h
      subst heq
      rfl

/-- Witness for C8: both paths succeed on the concrete witness environment
and exhibit the stated `last_action` behaviour. -/
theorem synthetic_step_last_action_witness :
    (∃ r, syntheticStep wExp wEnv 0 1 1 1 1 0 0 1 = some r ∧
      r.env.last_action = wEnv.last_action) ∧
    (∃ r, realStep wExp wEnv 0 = some r ∧ r.env.last_action = (0 : ℤ)) := by
  have hs : (syntheticStep wExp wEnv 0 1 1 1 1 0 0 1).isSome = true := by decide
  have hr : (realStep wExp wEnv 0).isSome = true := by decide
  refine ⟨⟨(syntheticStep wExp wEnv 0 1 1 1 1 0 0 1).get hs, (Option.some_get hs).symm, ?_⟩,
    ⟨(realStep wExp wEnv 0).get hr, (Option.some_get hr).symm, ?_⟩⟩
  · exact ((synthetic_step_last_action wExp wEnv 0 1 1 1 1 0 0 1).1 _
      (Option.some_get hs).symm).2
  · exact (synthetic_step_last_action wExp wEnv 0 1 1 1 1 0 0 1).2 _
      (Option.some_get hr).symm

/-! ## Claim C9 -/

/-- C9: a freshly constructed environment has cursor 0 and `last_action = -1`,
and `step` before any `reset` does not fail: it deterministically performs a
penalty-free step from row 0 (its reward is the bare `compute_reward` of its
own info, with no stability penalty subtracted). -/
theorem step_before_reset (exp : ℚ → ℚ) (rows : List Row) (w : Weights)
    (mults : List ℚ) (pen : ℚ) (a : ℕ) (hrows : rows ≠ []) (ha : a < mults.length) :
    (initEnv rows w mults pen).current_idx = 0 ∧
    (initEnv rows w mults pen).last_action = -1 ∧
    ∃ r, realStep exp (initEnv rows w mults pen) a = some r ∧
      r.reward = compute_reward r.info.revenue r.info.margin r.info.volume w
        (initEnv rows w mults pen).revenue_range
        (initEnv rows w mults pen).margin_range
        (initEnv rows w mults pen).volume_range ∧
      r.info.price = (initEnv rows w mults pen).base_price * mults.get ⟨a, ha⟩ ∧
      r.info.volume = predictDemand exp (initEnv rows w mults pen)
        (rows.get ⟨0, List.length_pos.mpr hrows⟩) r.info.price
        (encode_discrete (initEnv rows w mults pen).encoder
          (rows.get ⟨0, List.length_pos.mpr hrows⟩)) ∧
      r.env.last_action = (a : ℤ) ∧
      r.env.current_idx = 1 % rows.length := by
  have hlen0 : 0 < rows.length := List.length_pos.mpr hrows
  have hget0 : rows.get? 0 = some (rows.get ⟨0, hlen0⟩) := List.get?_eq_get hlen0
  have hgeta : mults.get? a = some (mults.get ⟨a, ha⟩) := List.get?_eq_get ha
  have hlen1 : 1 % rows.length < rows.length := Nat.mod_lt _ hlen0
  have hget1 : rows.get? (1 % rows.length) = some (rows.get ⟨1 % rows.length, hlen1⟩) :=
    List.get?_eq_get hlen1
  refine ⟨rfl, rfl, ?_⟩
  have henv : realStep exp (initEnv rows w mults pen) a =
      (rows.get? 0).bind fun row =>
        (mults.get? a).bind fun multiplier =>
          (if (0 : ℤ) ≤ -1 then
              (mults.get? (Int.toNat (-1))).bind fun prev_multiplier =>
                some (compute_reward ((initEnv rows w mults pen).base_price * multiplier *
                    predictDemand exp (initEnv rows w mults pen) row
                      ((initEnv rows w mults pen).base_price * multiplier)
                      (encode_discrete (initEnv rows w mults pen).encoder row))
                  (((initEnv rows w mults pen).base_price * multiplier -
                      (initEnv rows w mults pen).base_cost) *
                    predictDemand exp (initEnv rows w mults pen) row
                      ((initEnv rows w mults pen).base_price * multiplier)
                      (encode_discrete (initEnv rows w mults pen).encoder row))
                  (predictDemand exp (initEnv rows w mults pen) row
                    ((initEnv rows w mults pen).base_price * multiplier)
                    (encode_discrete (initEnv rows w mults pen).encoder row)) w
                  (initEnv rows w mults pen).revenue_range
                  (initEnv rows w mults pen).margin_range
                  (initEnv rows w mults pen).volume_range -
                  compute_price_change_penalty prev_multiplier multiplier pen)
            else some (compute_reward ((initEnv rows w mults pen).base_price * multiplier *
                    predictDemand exp (initEnv rows w mults pen) row
                      ((initEnv rows w mults pen).base_price * multiplier)
                      (encode_discrete (initEnv rows w mults pen).encoder row))
                  (((initEnv rows w mults pen).base_price * multiplier -
                      (initEnv rows w mults pen).base_cost) *
                    predictDemand exp (initEnv rows w mults pen) row
                      ((initEnv rows w mults pen).base_price * multiplier)
                      (encode_discrete (initEnv rows w mults pen).encoder row))
                  (predictDemand exp (initEnv rows w mults pen) row
                    ((initEnv rows w mults pen).base_price * multiplier)
                    (encode_discrete (initEnv rows w mults pen).encoder row)) w
                  (initEnv rows w mults pen).revenue_range
                  (initEnv rows w mults pen).margin_range
                  (initEnv rows w mults pen).volume_range)).bind fun reward =>
            (rows.get? (1 % rows.length)).bind fun next_row =>
              some
                { nextState := encode_continuousQ (initEnv rows w mults pen).encoder next_row
                  reward := reward
                  done := false
                  info :=
                    { revenue := (initEnv rows w mults pen).base_price * multiplier *
                        predictDemand exp (initEnv rows w mults pen) row
                          ((initEnv rows w mults pen).base_price * multiplier)
                          (encode_discrete (initEnv rows w mults pen).encoder row)
                      margin := ((initEnv rows w mults pen).base_price * multiplier -
                          (initEnv rows w mults pen).base_cost) *
                        predictDemand exp (initEnv rows w mults pen) row
                          ((initEnv rows w mults pen).base_price * multiplier)
                          (encode_discrete (initEnv rows w mults pen).encoder row)
                      volume := predictDemand exp (initEnv rows w mults pen) row
                        ((initEnv rows w mults pen).base_price * multiplier)
                        (encode_discrete (initEnv rows w mults pen).encoder row)
                      price := (initEnv rows w mults pen).base_price * multiplier }
                  env := { initEnv rows w mults pen with
                            last_action := (a : ℤ)
                            current_idx := 1 % rows.length } } := rfl
  rw [henv]
  simp only [hget0, hgeta, hget1, Option.some_bind,
    if_neg (by decide : ¬ (0 : ℤ) ≤ (-1 : ℤ))]
  exact ⟨_, rfl, rfl, rfl, rfl, rfl, rfl⟩

/-- Witness for C9 on the concrete witness environment, action 2. -/
theorem step_before_reset_witness :
    wEnv.current_idx = 0 ∧ wEnv.last_action = -1 ∧
    ∃ r, realStep wExp wEnv 2 = some r ∧
      r.reward = compute_reward r.info.revenue r.info.margin r.info.volume
        ⟨4/10, 4/10, 2/10⟩ wEnv.revenue_range wEnv.margin_range wEnv.volume_range ∧
      r.info.price = wEnv.base_price *
        ([8/10, 9/10, 1, 11/10, 12/10] : List ℚ).get ⟨2, by decide⟩ ∧
      r.info.volume = predictDemand wExp wEnv (wRows.get ⟨0, by decide⟩) r.info.price
        (encode_discrete wEnv.encoder (wRows.get ⟨0, by decide⟩)) ∧
      r.env.last_action = (2 : ℤ) ∧
      r.env.current_idx = 1 % wRows.length :=
  step_before_reset wExp wRows ⟨4/10, 4/10, 2/10⟩ [8/10, 9/10, 1, 11/10, 12/10] (15/100) 2
    (by decide) (by decide)

/-! ## Claim C2 -/

theorem realStep_unfold_pos (exp : ℚ → ℚ) (env : PricingEnvironment) (a : ℕ)
    (hba : (0 : ℤ) ≤ env.last_action) :
    realStep exp env a =
      (env.rows.get? env.current_idx).bind fun row =>
        (env.action_multipliers.get? a).bind fun multiplier =>
          (env.action_multipliers.get? env.last_action.toNat).bind fun prev_multiplier =>
            (env.rows.get? ((env.current_idx + 1) % env.rows.length)).bind fun next_row =>
              some
                { nextState := encode_continuousQ env.encoder next_row
                  reward := compute_reward
                      (env.base_price * multiplier *
                        predictDemand exp env row (env.base_price * multiplier)
                          (encode_discrete env.encoder row))
                      ((env.base_price * multiplier - env.base_cost) *
                        predictDemand exp env row (env.base_price * multiplier)
                          (encode_discrete env.encoder row))
                      (predictDemand exp env row (env.base_price * multiplier)
                        (encode_discrete env.encoder row))
                      env.weights env.revenue_range env.margin_range env.volume_range -
                    compute_price_change_penalty prev_multiplier multiplier
                      env.price_change_penalty
                  done := false
                  info :=
                    { revenue := env.base_price * multiplier *
                        predictDemand exp env row (env.base_price * multiplier)
                          (encode_discrete env.encoder row)
                      margin := (env.base_price * multiplier - env.base_cost) *
                        predictDemand exp env row (env.base_price * multiplier)
                          (encode_discrete env.encoder row)
                      volume := predictDemand exp env row (env.base_price * multiplier)
                        (encode_discrete env.encoder row)
                      price := env.base_price * multiplier }
                  env := { env with
                            last_action := (a : ℤ)
                            current_idx := (env.current_idx + 1) % env.rows.length } } := by
  unfold realStep
  simp only [if_pos hba, Option.pure_def, Option.some_bind]
  rfl

theorem realStep_unfold_neg (exp : ℚ → ℚ) (env : PricingEnvironment) (a : ℕ)
    (hba : ¬ (0 : ℤ) ≤ env.last_action) :
    realStep exp env a =
      (env.rows.get? env.current_idx).bind fun row =>
        (env.action_multipliers.get? a).bind fun multiplier =>
          (env.rows.get? ((env.current_idx + 1) % env.rows.length)).bind fun next_row =>
            some
              { nextState := encode_continuousQ env.encoder next_row
                reward := compute_reward
                    (env.base_price * multiplier *
                      predictDemand exp env row (env.base_price * multiplier)
                        (encode_discrete env.encoder row))
                    ((env.base_price * multiplier - env.base_cost) *
                      predictDemand exp env row (env.base_price * multiplier)
                        (encode_discrete env.encoder row))
                    (predictDemand exp env row (env.base_price * multiplier)
                      (encode_discrete env.encoder row))
                    env.weights env.revenue_range env.margin_range env.volume_range
                done := false
                info :=
                  { revenue := env.base_price * multiplier *
                      predictDemand exp env row (env.base_price * multiplier)
                        (encode_discrete env.encoder row)
                    margin := (env.base_price * multiplier - env.base_cost) *
                      predictDemand exp env row (env.base_price * multiplier)
                        (encode_discrete env.encoder row)
                    volume := predictDemand exp env row (env.base_price * multiplier)
                      (encode_discrete env.encoder row)
                    price := env.base_price * multiplier }
                env := { env with
                          last_action := (a : ℤ)
                          current_idx := (env.current_idx + 1) % env.rows.length } } := by
  unfold realStep
  simp only [if_neg hba, Option.pure_def, Option.some_bind]
  rfl

theorem predictDemand_eq_claim (exp : ℚ → ℚ) (env : PricingEnvironment) (row : Row)
    (m : ℚ) (ds : DiscreteState) :
    predictDemand exp env row (env.base_price * m) ds =
      max 1 ((if env.encoder.has_extended_state ∧ 0 < row.demand_forecast
          then row.demand_forecast else row.qty) *
        exp (-effectiveElasticity env ds *
          ((env.base_price * m - env.base_price) / env.base_price))) := by
  by_cases h : env.base_price = 0
  · simp [predictDemand, h]
  · simp [predictDemand, h]

/-- C2: on the real-data path, in an active episode with a valid action and a
valid remembered action, `step` succeeds and its `info` satisfies:
`price = base_price · action_multipliers[a]`,
`volume = max 1 (base_quantity_source · exp(−elasticity·(price−base_price)/base_price))`
with `base_quantity_source` the row's `demand_forecast` when extended mode is
on and the forecast is positive and the row's `qty` otherwise,
`revenue = price · volume`, `margin = (price − base_cost) · volume`, and
`volume ≥ 1`. -/
theorem real_step_spec (exp : ℚ → ℚ) (env : PricingEnvironment) (a : ℕ)
    (hidx : env.current_idx < env.rows.length)
    (ha : a < env.action_multipliers.length)
    (hla : env.last_action < (env.action_multipliers.length : ℤ)) :
    ∃ r, realStep exp env a = some r ∧
      r.info.price = env.base_price * env.action_multipliers.get ⟨a, ha⟩ ∧
      r.info.volume = max 1
        ((if env.encoder.has_extended_state ∧
              0 < (env.rows.get ⟨env.current_idx, hidx⟩).demand_forecast
            then (env.rows.get ⟨env.current_idx, hidx⟩).demand_forecast
            else (env.rows.get ⟨env.current_idx, hidx⟩).qty) *
          exp (-effectiveElasticity env
              (encode_discrete env.encoder (env.rows.get ⟨env.current_idx, hidx⟩)) *
            ((r.info.price - env.base_price) / env.base_price))) ∧
      r.info.revenue = r.info.price * r.info.volume ∧
      r.info.margin = (r.info.price - env.base_cost) * r.info.volume ∧
      1 ≤ r.info.volume := by
  have hlen : 0 < env.rows.length := lt_of_le_of_lt (Nat.zero_le _) hidx
  have hrow := List.get?_eq_get hidx
  have hmul := List.get?_eq_get ha
  have hlen1 : (env.current_idx + 1) % env.rows.length < env.rows.length :=
    Nat.mod_lt _ hlen
  have hnext := List.get?_eq_get hlen1
  by_cases hba : (0 : ℤ) ≤ env.last_action
  · have htn : env.last_action.toNat < env.action_multipliers.length := by omega
    have hpm := List.get?_eq_get htn
    have hstep : realStep exp env a = some
        { nextState := encode_continuousQ env.encoder
            (env.rows.get ⟨(env.current_idx + 1) % env.rows.length, hlen1⟩)
          reward := compute_reward
              (env.base_price * env.action_multipliers.get ⟨a, ha⟩ *
                predictDemand exp env (env.rows.get ⟨env.current_idx, hidx⟩)
                  (env.base_price * env.action_multipliers.get ⟨a, ha⟩)
                  (encode_discrete env.encoder (env.rows.get ⟨env.current_idx, hidx⟩)))
              ((env.base_price * env.action_multipliers.get ⟨a, ha⟩ - env.base_cost) *
                predictDemand exp env (env.rows.get ⟨env.current_idx, hidx⟩)
                  (env.base_price * env.action_multipliers.get ⟨a, ha⟩)
                  (encode_discrete env.encoder (env.rows.get ⟨env.current_idx, hidx⟩)))
              (predictDemand exp env (env.rows.get ⟨env.current_idx, hidx⟩)
                (env.base_price * env.action_multipliers.get ⟨a, ha⟩)
                (encode_discrete env.encoder (env.rows.get ⟨env.current_idx, hidx⟩)))
              env.weights env.revenue_range env.margin_range env.volume_range -
            compute_price_change_penalty
              (env.action_multipliers.get ⟨env.last_action.toNat, htn⟩)
              (env.action_multipliers.get ⟨a, ha⟩) env.price_change_penalty
          done := false
          info :=
            { revenue := env.base_price * env.action_multipliers.get ⟨a, ha⟩ *
                predictDemand exp env (env.rows.get ⟨env.current_idx, hidx⟩)
                  (env.base_price * env.action_multipliers.get ⟨a, ha⟩)
                  (encode_discrete env.encoder (env.rows.get ⟨env.current_idx, hidx⟩))
              margin := (env.base_price * env.action_multipliers.get ⟨a, ha⟩ - env.base_cost) *
                predictDemand exp env (env.rows.get ⟨env.current_idx, hidx⟩)
                  (env.base_price * env.action_multipliers.get ⟨a, ha⟩)
                  (encode_discrete env.encoder (env.rows.get ⟨env.current_idx, hidx⟩))
              volume := predictDemand exp env (env.rows.get ⟨env.current_idx, hidx⟩)
                (env.base_price * env.action_multipliers.get ⟨a, ha⟩)
                (encode_discrete env.encoder (env.rows.get ⟨env.current_idx, hidx⟩))
              price := env.base_price * env.action_multipliers.get ⟨a, ha⟩ }
          env := { env with
                    last_action := (a : ℤ)
                    current_idx := (env.current_idx + 1) % env.rows.length } } := by
      rw [realStep_unfold_pos exp env a hba]
      simp only [hrow, hmul, hpm, hnext, Option.some_bind]
    exact ⟨_, hstep, rfl, predictDemand_eq_claim exp env _ _ _, rfl, rfl, le_max_left _ _⟩
  · have hstep : realStep exp env a = some
        { nextState := encode_continuousQ env.encoder
            (env.rows.get ⟨(env.current_idx + 1) % env.rows.length, hlen1⟩)
          reward := compute_reward
              (env.base_price * env.action_multipliers.get ⟨a, ha⟩ *
                predictDemand exp env (env.rows.get ⟨env.current_idx, hidx⟩)
                  (env.base_price * env.action_multipliers.get ⟨a, ha⟩)
                  (encode_discrete env.encoder (env.rows.get ⟨env.current_idx, hidx⟩)))
              ((env.base_price * env.action_multipliers.get ⟨a, ha⟩ - env.base_cost) *
                predictDemand exp env (env.rows.get ⟨env.current_idx, hidx⟩)
                  (env.base_price * env.action_multipliers.get ⟨a, ha⟩)
                  (encode_discrete env.encoder (env.rows.get ⟨env.current_idx, hidx⟩)))
              (predictDemand exp env (env.rows.get ⟨env.current_idx, hidx⟩)
                (env.base_price * env.action_multipliers.get ⟨a, ha⟩)
                (encode_discrete env.encoder (env.rows.get ⟨env.current_idx, hidx⟩)))
              env.weights env.revenue_range env.margin_range env.volume_range
          done := false
          info :=
            { revenue := env.base_price * env.action_multipliers.get ⟨a, ha⟩ *
                predictDemand exp env (env.rows.get ⟨env.current_idx, hidx⟩)
                  (env.base_price * env.action_multipliers.get ⟨a, ha⟩)
                  (encode_discrete env.encoder (env.rows.get ⟨env.current_idx, hidx⟩))
              margin := (env.base_price * env.action_multipliers.get ⟨a, ha⟩ - env.base_cost) *
                predictDemand exp env (env.rows.get ⟨env.current_idx, hidx⟩)
                  (env.base_price * env.action_multipliers.get ⟨a, ha⟩)
                  (encode_discrete env.encoder (env.rows.get ⟨env.current_idx, hidx⟩))
              volume := predictDemand exp env (env.rows.get ⟨env.current_idx, hidx⟩)
                (env.base_price * env.action_multipliers.get ⟨a, ha⟩)
                (encode_discrete env.encoder (env.rows.get ⟨env.current_idx, hidx⟩))
              price := env.base_price * env.action_multipliers.get ⟨a, ha⟩ }
          env := { env with
                    last_action := (a : ℤ)
                    current_idx := (env.current_idx + 1) % env.rows.length } } := by
      rw [realStep_unfold_neg exp env a hba]
      simp only [hrow, hmul, hnext, Option.some_bind]
    exact ⟨_, hstep, rfl, predictDemand_eq_claim exp env _ _ _, rfl, rfl, le_max_left _ _⟩

set_option maxHeartbeats 2000000 in
/-- Witness for C2 on the concrete witness environment, action 3. -/
theorem real_step_spec_witness :
    ∃ r, realStep wExp wEnv 3 = some r ∧
      r.info.price = wEnv.base_price * wEnv.action_multipliers.get ⟨3, by decide⟩ ∧
      r.info.volume = max 1
        ((if wEnv.encoder.has_extended_state ∧
              0 < (wEnv.rows.get ⟨wEnv.current_idx, by decide⟩).demand_forecast
            then (wEnv.rows.get ⟨wEnv.current_idx, by decide⟩).demand_forecast
            else (wEnv.rows.get ⟨wEnv.current_idx, by decide⟩).qty) *
          wExp (-effectiveElasticity wEnv
              (encode_discrete wEnv.encoder (wEnv.rows.get ⟨wEnv.current_idx, by decide⟩)) *
            ((r.info.price - wEnv.base_price) / wEnv.base_price))) ∧
      r.info.revenue = r.info.price * r.info.volume ∧
      r.info.margin = (r.info.price - wEnv.base_cost) * r.info.volume ∧
      1 ≤ r.info.volume :=
  real_step_spec wExp wEnv 3 (by decide) (by decide) (by decide)

/-! ## Claim C7 -/

theorem foldl_min_le_init (l : List ℚ) : ∀ a : ℚ, l.foldl min a ≤ a := by
  induction l with
  | nil => intro a; exact le_refl a
  | cons x xs ih => intro a; exact le_trans (ih (min a x)) (min_le_left a x)

theorem foldl_min_le_of_mem (l : List ℚ) : ∀ (a x : ℚ), x ∈ l → l.foldl min a ≤ x := by
  induction l with
  | nil => intro a x hx; simp at hx
  | cons y ys ih =>
    intro a x hx
    rcases List.mem_cons.mp hx with h | h
    · subst h
      exact le_trans (foldl_min_le_init ys (min a x)) (min_le_right a x)
    · exact ih (min a y) x h

theorem init_le_foldl_max (l : List ℚ) : ∀ a : ℚ, a ≤ l.foldl max a := by
  induction l with
  | nil => intro a; exact le_refl a
  | cons x xs ih => intro a; exact le_trans (le_max_left a x) (ih (max a x))

theorem mem_le_foldl_max (l : List ℚ) : ∀ (a x : ℚ), x ∈ l → x ≤ l.foldl max a := by
  induction l with
  | nil => intro a x hx; simp at hx
  | cons y ys ih =>
    intro a x hx
    rcases List.mem_cons.mp hx with h | h
    · subst h
      exact le_trans (le_max_right a x) (init_le_foldl_max ys (max a x))
    · exact ih (max a y) x h

theorem listMin_le_of_mem (l : List ℚ) (x : ℚ) (h : x ∈ l) : listMin l ≤ x := by
  cases l with
  | nil => simp at h
  | cons y ys =>
    rcases List.mem_cons.mp h with h' | h'
    · subst h'
      exact foldl_min_le_init ys x
    · exact foldl_min_le_of_mem ys y x h'

theorem le_listMax_of_mem (l : List ℚ) (x : ℚ) (h : x ∈ l) : x ≤ listMax l := by
  cases l with
  | nil => simp at h
  | cons y ys =>
    rcases List.mem_cons.mp h with h' | h'
    · subst h'
      exact init_le_foldl_max ys x
    · exact mem_le_foldl_max ys y x h'

theorem normalize_mem_unit (v lo hi : ℚ) (h1 : lo ≤ v) (h2 : v ≤ hi) :
    0 ≤ normalize v lo hi ∧ normalize v lo hi ≤ 1 := by
  unfold normalize
  by_cases h : hi = lo
  · simp [h]
  · have hlt : lo < hi := lt_of_le_of_ne (h1.trans h2) (Ne.symm h)
    rw [if_neg h]
    constructor
    · exact div_nonneg (by linarith) (by linarith)
    · rw [div_le_one (by linarith)]
      linarith

/-- C7 corrected, counterexample: `rowC` belongs to the dataset `cRows`, yet
its encoded competitor component is negative (its competitor price is the
missing-data sentinel 0, which lies below the fitted positive range), so the
claim that all seven normalized components lie in [0, 1] for every dataset
row is false. -/
theorem encode_continuous_counterexample :
    rowC ∈ cRows ∧ encode_continuous (mkStateEncoder cRows) rowC 1 < 0 := by
  refine ⟨by decide, ?_⟩
  have h : encode_continuous (mkStateEncoder cRows) rowC 1 =
      ((normalize rowC.comp_1 (mkStateEncoder cRows).comp_min
        (mkStateEncoder cRows).comp_max : ℚ) : ℝ) := rfl
  have hc1 : (mkStateEncoder cRows).comp_min = 50 := by decide
  have hc2 : (mkStateEncoder cRows).comp_max = 60 := by decide
  have hc0 : rowC.comp_1 = 0 := rfl
  have h2 : normalize rowC.comp_1 (mkStateEncoder cRows).comp_min
      (mkStateEncoder cRows).comp_max = -5 := by
    rw [hc0, hc1, hc2, normalize]
    norm_num
  rw [h, h2]
  norm_num

/-- C7 amended: for every dataset row the 9-vector has its demand and
price-ratio components in [0, 1] and its season sine/cosine components in
[−1, 1]; the competitor, lag, inventory and forecast components lie in
[0, 1] provided the row's value lies inside the corresponding fitted range
(which can fail for sentinel-0 values, as the counterexample shows), and the
margin-potential component lies in [0, 1] provided
`0 ≤ unit_price − freight_price ≤ base_price`. -/
theorem encode_continuous_bounds (rows : List Row) (d c l i f : ℕ) (r : Row)
    (hr : r ∈ rows) :
    (0 ≤ encode_continuous (mkStateEncoder rows d c l i f) r 0 ∧
      encode_continuous (mkStateEncoder rows d c l i f) r 0 ≤ 1) ∧
    (-1 ≤ encode_continuous (mkStateEncoder rows d c l i f) r 2 ∧
      encode_continuous (mkStateEncoder rows d c l i f) r 2 ≤ 1) ∧
    (-1 ≤ encode_continuous (mkStateEncoder rows d c l i f) r 3 ∧
      encode_continuous (mkStateEncoder rows d c l i f) r 3 ≤ 1) ∧
    (0 ≤ encode_continuous (mkStateEncoder rows d c l i f) r 8 ∧
      encode_continuous (mkStateEncoder rows d c l i f) r 8 ≤ 1) ∧
    ((mkStateEncoder rows d c l i f).comp_min ≤ r.comp_1 →
      r.comp_1 ≤ (mkStateEncoder rows d c l i f).comp_max →
      0 ≤ encode_continuous (mkStateEncoder rows d c l i f) r 1 ∧
      encode_continuous (mkStateEncoder rows d c l i f) r 1 ≤ 1) ∧
    ((mkStateEncoder rows d c l i f).lag_min ≤ r.lag_price →
      r.lag_price ≤ (mkStateEncoder rows d c l i f).lag_max →
      0 ≤ encode_continuous (mkStateEncoder rows d c l i f) r 4 ∧
      encode_continuous (mkStateEncoder rows d c l i f) r 4 ≤ 1) ∧
    ((mkStateEncoder rows d c l i f).inv_min ≤ r.inventory_level →
      r.inventory_level ≤ (mkStateEncoder rows d c l i f).inv_max →
      0 ≤ encode_continuous (mkStateEncoder rows d c l i f) r 5 ∧
      encode_continuous (mkStateEncoder rows d c l i f) r 5 ≤ 1) ∧
    ((mkStateEncoder rows d c l i f).forecast_min ≤ r.demand_forecast →
      r.demand_forecast ≤ (mkStateEncoder rows d c l i f).forecast_max →
      0 ≤ encode_continuous (mkStateEncoder rows d c l i f) r 6 ∧
      encode_continuous (mkStateEncoder rows d c l i f) r 6 ≤ 1) ∧
    (0 ≤ r.unit_price - r.freight_price →
      r.unit_price - r.freight_price ≤ (mkStateEncoder rows d c l i f).base_price →
      0 ≤ encode_continuous (mkStateEncoder rows d c l i f) r 7 ∧
      encode_continuous (mkStateEncoder rows d c l i f) r 7 ≤ 1) := by
  have hq : r.qty ∈ rows.map (fun x => x.qty) := List.mem_map_of_mem _ hr
  have hp : r.unit_price ∈ rows.map (fun x => x.unit_price) := List.mem_map_of_mem _ hr
  refine ⟨?_, ?_, ?_, ?_, ?_, ?_, ?_, ?_, ?_⟩
  · have hb := normalize_mem_unit r.qty (mkStateEncoder rows d c l i f).qty_min
      (mkStateEncoder rows d c l i f).qty_max
      (listMin_le_of_mem _ _ hq) (le_listMax_of_mem _ _ hq)
    have hv : encode_continuous (mkStateEncoder rows d c l i f) r 0 =
        ((normalize r.qty (mkStateEncoder rows d c l i f).qty_min
          (mkStateEncoder rows d c l i f).qty_max : ℚ) : ℝ) := rfl
    rw [hv]
    exact ⟨by exact_mod_cast hb.1, by exact_mod_cast hb.2⟩
  · exact ⟨Real.neg_one_le_sin _, Real.sin_le_one _⟩
  · exact ⟨Real.neg_one_le_cos _, Real.cos_le_one _⟩
  · have hb := normalize_mem_unit r.unit_price (mkStateEncoder rows d c l i f).price_min
      (mkStateEncoder rows d c l i f).price_max
      (listMin_le_of_mem _ _ hp) (le_listMax_of_mem _ _ hp)
    have hv : encode_continuous (mkStateEncoder rows d c l i f) r 8 =
        ((normalize r.unit_price (mkStateEncoder rows d c l i f).price_min
          (mkStateEncoder rows d c l i f).price_max : ℚ) : ℝ) := rfl
    rw [hv]
    exact ⟨by exact_mod_cast hb.1, by exact_mod_cast hb.2⟩
  · intro h1 h2
    have hb := normalize_mem_unit r.comp_1 _ _ h1 h2
    have hv : encode_continuous (mkStateEncoder rows d c l i f) r 1 =
        ((normalize r.comp_1 (mkStateEncoder rows d c l i f).comp_min
          (mkStateEncoder rows d c l i f).comp_max : ℚ) : ℝ) := rfl
    rw [hv]
    exact ⟨by exact_mod_cast hb.1, by exact_mod_cast hb.2⟩
  · intro h1 h2
    have hb := normalize_mem_unit r.lag_price _ _ h1 h2
    have hv : encode_continuous (mkStateEncoder rows d c l i f) r 4 =
        ((normalize r.lag_price (mkStateEncoder rows d c l i f).lag_min
          (mkStateEncoder rows d c l i f).lag_max : ℚ) : ℝ) := rfl
    rw [hv]
    exact ⟨by exact_mod_cast hb.1, by exact_mod_cast hb.2⟩
  · intro h1 h2
    have hb := normalize_mem_unit r.inventory_level _ _ h1 h2
    have hv : encode_continuous (mkStateEncoder rows d c l i f) r 5 =
        (((if (mkStateEncoder rows d c l i f).has_extended_state then
            normalize r.inventory_level (mkStateEncoder rows d c l i f).inv_min
              (mkStateEncoder rows d c l i f).inv_max
          else 1/2) : ℚ) : ℝ) := rfl
    rw [hv]
    by_cases hx : (mkStateEncoder rows d c l i f).has_extended_state = true
    · rw [if_pos hx]
      exact ⟨by exact_mod_cast hb.1, by exact_mod_cast hb.2⟩
    · rw [if_neg hx]
      norm_num
  · intro h1 h2
    have hb := normalize_mem_unit r.demand_forecast _ _ h1 h2
    have hv : encode_continuous (mkStateEncoder rows d c l i f) r 6 =
        (((if (mkStateEncoder rows d c l i f).has_extended_state then
            normalize r.demand_forecast (mkStateEncoder rows d c l i f).forecast_min
              (mkStateEncoder rows d c l i f).forecast_max
          else 1/2) : ℚ) : ℝ) := rfl
    rw [hv]
    by_cases hx : (mkStateEncoder rows d c l i f).has_extended_state = true
    · rw [if_pos hx]
      exact ⟨by exact_mod_cast hb.1, by exact_mod_cast hb.2⟩
    · rw [if_neg hx]
      norm_num
  · intro h1 h2
    have hb := normalize_mem_unit (r.unit_price - r.freight_price) 0
      (mkStateEncoder rows d c l i f).base_price h1 h2
    have hv : encode_continuous (mkStateEncoder rows d c l i f) r 7 =
        ((normalize (r.unit_price - r.freight_price) 0
          (mkStateEncoder rows d c l i f).base_price : ℚ) : ℝ) := rfl
    rw [hv]
    exact ⟨by exact_mod_cast hb.1, by exact_mod_cast hb.2⟩

set_option maxHeartbeats 2000000 in
/-- Witness for the amended C7 on a sentinel-free dataset. -/
theorem encode_continuous_bounds_witness :
    (0 ≤ encode_continuous (mkStateEncoder wRows 3 3 3 3 3) rowA 0 ∧
      encode_continuous (mkStateEncoder wRows 3 3 3 3 3) rowA 0 ≤ 1) ∧
    (-1 ≤ encode_continuous (mkStateEncoder wRows 3 3 3 3 3) rowA 2 ∧
      encode_continuous (mkStateEncoder wRows 3 3 3 3 3) rowA 2 ≤ 1) ∧
    (-1 ≤ encode_continuous (mkStateEncoder wRows 3 3 3 3 3) rowA 3 ∧
      encode_continuous (mkStateEncoder wRows 3 3 3 3 3) rowA 3 ≤ 1) ∧
    (0 ≤ encode_continuous (mkStateEncoder wRows 3 3 3 3 3) rowA 8 ∧
      encode_continuous (mkStateEncoder wRows 3 3 3 3 3) rowA 8 ≤ 1) ∧
    (0 ≤ encode_continuous (mkStateEncoder wRows 3 3 3 3 3) rowA 1 ∧
      encode_continuous (mkStateEncoder wRows 3 3 3 3 3) rowA 1 ≤ 1) ∧
    (0 ≤ encode_continuous (mkStateEncoder wRows 3 3 3 3 3) rowA 4 ∧
      encode_continuous (mkStateEncoder wRows 3 3 3 3 3) rowA 4 ≤ 1) ∧
    (0 ≤ encode_continuous (mkStateEncoder wRows 3 3 3 3 3) rowA 5 ∧
      encode_continuous (mkStateEncoder wRows 3 3 3 3 3) rowA 5 ≤ 1) ∧
    (0 ≤ encode_continuous (mkStateEncoder wRows 3 3 3 3 3) rowA 6 ∧
      encode_continuous (mkStateEncoder wRows 3 3 3 3 3) rowA 6 ≤ 1) ∧
    (0 ≤ encode_continuous (mkStateEncoder wRows 3 3 3 3 3) rowA 7 ∧
      encode_continuous (mkStateEncoder wRows 3 3 3 3 3) rowA 7 ≤ 1) := by
  have h := encode_continuous_bounds wRows 3 3 3 3 3 rowA (by decide)
  exact ⟨h.1, h.2.1, h.2.2.1, h.2.2.2.1,
    h.2.2.2.2.1 (by decide) (by decide),
    h.2.2.2.2.2.1 (by decide) (by decide),
    h.2.2.2.2.2.2.1 (by norm_num [mkStateEncoder, wRows, rowA, rowB])
      (by norm_num [mkStateEncoder, wRows, rowA, rowB]),
    h.2.2.2.2.2.2.2.1 (by norm_num [mkStateEncoder, wRows, rowA, rowB])
      (by norm_num [mkStateEncoder, wRows, rowA, rowB]),
    h.2.2.2.2.2.2.2.2 (by norm_num [rowA])
      (by norm_num [mkStateEncoder, wRows, rowA, rowB, listMean])⟩

end DynPricing
